import Mathlib

/-!
Verification of the SpotFlow transaction analyzer
(`Spotflow transactions data/analyze_transactions.py`).

The Python source is shallowly embedded below.  Strings are modelled as
Lean `String`s (lists of characters); all character-level operations
(`str.strip`, `str.lower`, regular-expression steps, …) are implemented
as executable functions over `List Char`, restricted to the ASCII/Latin-1
behaviour actually exercised by the analyzer.  `datetime.fromisoformat`
is an external standard-library collaborator and is modelled as an
abstract parameter `parseIso : String → Option String` of the
aggregation pass (`none` = `ValueError`).
-/

set_option maxHeartbeats 2000000

namespace SpotFlow

/-! ## Character-level helpers (Python string semantics) -/

/-- Characters treated as whitespace by Python's `str.strip()` and by `\s`
in a (unicode) regular expression: ASCII whitespace plus NBSP. -/
def isPySpace (c : Char) : Bool :=
  c == ' ' || c == '\t' || c == '\n' || c == '\r' || c == '\x0b' || c == '\x0c' || c == '\u00A0'

/-- `str.strip()` on a character list. -/
def pyStripL (l : List Char) : List Char :=
  ((l.dropWhile isPySpace).reverse.dropWhile isPySpace).reverse

/-- `str.strip()`. -/
def pyStrip (s : String) : String := ⟨pyStripL s.data⟩

/-- `str.strip('"')` (or any single strip character) on a character list. -/
def stripCharL (q : Char) (l : List Char) : List Char :=
  ((l.dropWhile (· == q)).reverse.dropWhile (· == q)).reverse

/-- `str.lower()` on a character list (ASCII). -/
def pyLowerL (l : List Char) : List Char := l.map Char.toLower

/-- `str.lower()`. -/
def pyLower (s : String) : String := ⟨pyLowerL s.data⟩

/-- `str.upper()` on a character list (ASCII). -/
def pyUpperL (l : List Char) : List Char := l.map Char.toUpper

/-- `str.replace(a, rep)` for a single-character pattern `a`. -/
def replaceCharL (a : Char) (rep : List Char) : List Char → List Char
  | [] => []
  | c :: t => (if c == a then rep else [c]) ++ replaceCharL a rep t

/-- `str.replace("\r\n", "\n")`: collapse CRLF pairs, left to right. -/
def replaceCRLF : List Char → List Char
  | '\r' :: '\n' :: t => '\n' :: replaceCRLF t
  | c :: t => c :: replaceCRLF t
  | [] => []

/-- `re.sub(r"\s+", " ", ·)`: collapse every whitespace run to one space. -/
def collapseWs : List Char → List Char
  | [] => []
  | [c] => if isPySpace c then [' '] else [c]
  | c :: d :: t =>
    if isPySpace c then
      (if isPySpace d then collapseWs (d :: t) else ' ' :: collapseWs (d :: t))
    else c :: collapseWs (d :: t)

/-! ## The message normalizer (`_normalise_message`, lines 52-114) -/

def BLANK_MESSAGE : String := "<blank>"

/-- Word characters (`\w` in an ASCII regular expression). -/
def isWordChar (c : Char) : Bool := c.isAlphanum || c == '_'

/-- Python `str.title()` (ASCII cased characters). -/
def pyTitleGo : Bool → List Char → List Char
  | _, [] => []
  | prevCased, c :: t =>
    if c.isAlpha then (if prevCased then c.toLower else c.toUpper) :: pyTitleGo true t
    else c :: pyTitleGo false t

/-- Python `str.title()`. -/
def pyTitleL (l : List Char) : List Char := pyTitleGo false l

/-- The maximal `\w`-runs (words) of a string, accumulator-first. -/
def wordsOf (cur : List Char) : List Char → List (List Char)
  | [] => if cur.isEmpty then [] else [cur]
  | c :: t =>
    if isWordChar c then wordsOf (cur ++ [c]) t
    else if cur.isEmpty then wordsOf [] t else cur :: wordsOf [] t

/-- A word producing a `\b[A-Z]{2,}\b` match kept by the `len ≤ 4` filter:
an all-uppercase-letter word of length 2 to 4. -/
def isAcronymWord (w : List Char) : Bool :=
  decide (2 ≤ w.length) && decide (w.length ≤ 4) && w.all Char.isUpper

/-- The uppercase acronym tokens of lines 101-105 (a Python `set`; its
iteration order is unspecified, the deduplicated first-occurrence order is
used here — the substitutions of line 107-110 touch disjoint words, so the
order does not affect the result). -/
def uppercaseTokens (l : List Char) : List (List Char) :=
  ((wordsOf [] l).filter isAcronymWord).dedup

/-- `re.sub(r"\b" + pat + r"\b", rep, ·)` for a word `pat`: replace every
whole-word occurrence. -/
def replaceWordGo (pat rep cur : List Char) : List Char → List Char
  | [] => if cur == pat then rep else cur
  | c :: t =>
    if isWordChar c then replaceWordGo pat rep (cur ++ [c]) t
    else (if cur == pat then rep else cur) ++ c :: replaceWordGo pat rep [] t

def replaceWord (pat rep l : List Char) : List Char :=
  replaceWordGo pat rep [] l

/-- After a `'"'`, does `\s*,` match?  If so the `re.split(r'"\s*,', ·)`
pattern matches here. -/
def strayTail (l : List Char) : Option (List Char) :=
  match l.dropWhile isPySpace with
  | ',' :: r => some r
  | _ => none

/-- `re.split(r'"\s*,', s, maxsplit=1)`: return the part before the first
match (`none` when the pattern does not occur). -/
def straySplitGo (acc : List Char) : List Char → Option (List Char)
  | [] => none
  | c :: t =>
    if c == '"' then
      match strayTail t with
      | some _ => some acc
      | none => straySplitGo (acc ++ [c]) t
    else straySplitGo (acc ++ [c]) t

/-- The character class of `re.sub(r'[\s,;:."-]+$', '', ·)`. -/
def isTrailJunk (c : Char) : Bool :=
  isPySpace c || c == ',' || c == ';' || c == ':' || c == '.' || c == '"' || c == '-'

/-- `re.sub(r'[\s,;:."-]+$', '', ·)`: drop the maximal trailing junk run. -/
def dropTrailingJunk (l : List Char) : List Char :=
  (l.reverse.dropWhile isTrailJunk).reverse

/-- Lines 62-66: strip one layer of wrapping double quotes (when the first
line starts and ends with `"` and has length > 1), then strip any remaining
leading/trailing `"` characters and whitespace. -/
def stripWrappingQuotes (l : List Char) : List Char :=
  let l1 :=
    if l.head? = some '"' ∧ l.getLast? = some '"' ∧ 1 < l.length
    then pyStripL ((l.drop 1).dropLast) else l
  pyStripL (stripCharL '"' l1)

def otp_patterns : List (List Char) :=
  ["kindly enter the otp".data, "please enter the otp".data, "please input the otp".data]

/-- Lines 54-88 of `_normalise_message`: the cleanup pipeline before the
OTP check; `none` is an early `return BLANK_MESSAGE`. -/
def normPrelude (message : String) : Option (List Char) :=
  let cleaned := pyStripL (replaceCRLF message.data)
  if cleaned = [] ∨ cleaned = ",".data ∨ cleaned = ",,".data ∨
      cleaned = "\"\"".data ∨ cleaned = "''".data then none
  else
    let first_line := pyStripL (cleaned.takeWhile (· ≠ '\n'))
    let first_line := stripWrappingQuotes first_line
    if first_line = [] ∨ first_line = ",".data ∨ first_line = ",,".data ∨
        first_line = ".".data ∨ first_line = "-".data then none
    else
      let first_line := replaceCharL '\u00A0' [' '] first_line
      let first_line := pyStripL (collapseWs first_line)
      let first_line :=
        match straySplitGo [] first_line with
        | some p0 => if pyStripL p0 ≠ [] then pyStripL p0 else first_line
        | none => first_line
      let first_line := pyStripL (dropTrailingJunk first_line)
      let first_line :=
        if first_line.contains '_' then
          let candidate := pyStripL (replaceCharL '_' [' '] first_line)
          if candidate ≠ [] then
            (if pyUpperL first_line = first_line then pyTitleL candidate else candidate)
          else first_line
        else first_line
      some first_line

/-- Lines 90-114 of `_normalise_message`: OTP canonicalization, acronym
restoration and sentence casing. -/
def normFinish (first_line : List Char) : List Char :=
  let fll := pyLowerL first_line
  if otp_patterns.any (fun p => p.isPrefixOf fll) then "OTP verification required".data
  else
    let tokens := uppercaseTokens first_line
    let fll := tokens.foldl (fun acc t => replaceWord (pyLowerL t) t acc) fll
    match fll with
    | [] => []
    | c :: t => c.toUpper :: t

/-- `_normalise_message` (the `message is None` branch of the Python source
cannot arise in this typed embedding). -/
def normaliseMessage (message : String) : String :=
  match normPrelude message with
  | none => BLANK_MESSAGE
  | some fl => ⟨normFinish fl⟩

/-! ## Closed vocabularies (lines 25-33)

`PROVIDERS`, `STATUSES`, `CHANNELS` and `REGION_SET` are Python `set`s;
they are modelled as duplicate-free lists (membership is all the code
uses, except for the iteration order of the provider/region truncation
loops, which the source leaves unspecified and which is fixed here to
the literal order). -/

def REGIONS : List String := ["Nigeria", "Ghana", "South Africa", "Kenya", "Tanzania"]

def PROVIDERS : List String :=
  ["cellulant", "hubtel", "interswitch", "ozow", "paystack", "spotflow_accounts", "tembo_plus"]

def STATUSES : List String := ["successful", "failed", "abandoned", "cancelled", "inprogress"]

def CHANNELS : List String := ["card", "bank_transfer", "eft", "mobile_money"]

def DEFAULT_DATE_PLACEHOLDER : String := "<missing-date>"

/-- `ISO_PATTERN.match(s)`: does `s` start with `\d{4}-\d{2}-\d{2}T`? -/
def isoPrefixMatch (s : String) : Bool :=
  match s.data with
  | y1 :: y2 :: y3 :: y4 :: '-' :: m1 :: m2 :: '-' :: d1 :: d2 :: 'T' :: _ =>
    y1.isDigit && y2.isDigit && y3.isDigit && y4.isDigit &&
    m1.isDigit && m2.isDigit && d1.isDigit && d2.isDigit
  | _ => false

/-! ## `float()` literal recognition (the `_is_number` lookahead) -/

/-- Continuation of a digit group: underscores are only allowed between
digits (Python numeric literal rules). -/
def digitsURest : List Char → Bool
  | [] => true
  | '_' :: [] => false
  | '_' :: c :: t => c.isDigit && digitsURest t
  | c :: t => c.isDigit && digitsURest t

/-- A non-empty digit group with legally placed underscores. -/
def digitsU : List Char → Bool
  | [] => false
  | c :: t => c.isDigit && digitsURest t

/-- Split a character list at the first character satisfying `p`. -/
def splitFirstChar (p : Char → Bool) : List Char → Option (List Char × List Char)
  | [] => none
  | c :: t =>
    if p c then some ([], t)
    else (splitFirstChar p t).map (fun pr => (c :: pr.1, pr.2))

/-- The mantissa of a float literal: `digits`, `digits.`, `.digits` or
`digits.digits`. -/
def mantissaOK (l : List Char) : Bool :=
  match splitFirstChar (· == '.') l with
  | some (ip, fp) =>
    (ip.isEmpty || digitsU ip) && (fp.isEmpty || digitsU fp) && !(ip.isEmpty && fp.isEmpty)
  | none => digitsU l

/-- An optionally signed exponent. -/
def exponentOK (l : List Char) : Bool :=
  match l with
  | '+' :: t => digitsU t
  | '-' :: t => digitsU t
  | t => digitsU t

/-- Would Python's `float(s)` succeed (ASCII forms)? -/
def floatAccepts (s : String) : Bool :=
  let l := pyStripL s.data
  let l := match l with
    | '+' :: t => t
    | '-' :: t => t
    | t => t
  if pyLowerL l = "inf".data ∨ pyLowerL l = "infinity".data ∨ pyLowerL l = "nan".data then true
  else
    match splitFirstChar (fun c => c == 'e' || c == 'E') l with
    | some (m, e) => mantissaOK m && exponentOK e
    | none => mantissaOK l

/-- `_is_number` (lines 189-197): remove thousands separators, then try
`float`. -/
def is_number (token : String) : Bool :=
  if token = "" then false
  else floatAccepts ⟨replaceCharL ',' [] token.data⟩

/-! ## The Boundary Scanner (`_find_next_provider_index`, lines 117-124) -/

/-- The boundary test of line 122: `row[idx]` is a provider (trimmed,
lowercased) and `row[idx+1]` is a region (trimmed). -/
def pairPred (a b : String) : Bool :=
  PROVIDERS.contains (pyLower (pyStrip a)) && REGIONS.contains (pyStrip b)

/-- Scan consecutive cell pairs for the first boundary (index relative to
the start of the list). -/
def findPairL : List String → Option Nat
  | a :: b :: t => if pairPred a b then some 0 else (findPairL (b :: t)).map (· + 1)
  | _ => none

/-- `_find_next_provider_index(row, start)`. -/
def findNextProviderIndex (row : List String) (start : Nat) : Option Nat :=
  (findPairL (row.drop start)).map (· + start)

/-- First index (relative) whose cell satisfies `p`. -/
def findIdxL (p : String → Bool) : List String → Option Nat
  | [] => none
  | s :: t => if p s then some 0 else (findIdxL p t).map (· + 1)

/-- First absolute index `≥ i` whose cell satisfies `p` (the
`while idx < n and not p(row[idx]): idx += 1` search loops). -/
def findFromIdx (p : String → Bool) (row : List String) (i : Nat) : Option Nat :=
  (findIdxL p (row.drop i)).map (· + i)

def statusPred (s : String) : Bool := STATUSES.contains (pyLower (pyStrip s))

def channelPred (s : String) : Bool := CHANNELS.contains (pyLower (pyStrip s))

/-! ## The Field Extractor (`extract_transactions`, lines 127-225) -/

structure Txn where
  provider : String
  region : String
  status : String
  channel : String
  message : String
  payment_date : String
  customer : String
deriving DecidableEq, Repr

/-- The message-collection loop (lines 173-201) on the row suffix starting
at the current index: returns the collected raw tokens, the ISO timestamp
token if one terminated the loop (else `""`), and the number of cells
consumed.  The `_find_next_provider_index(row, idx) == idx` lookahead of
lines 181-183 holds exactly when the suffix itself starts with a boundary,
i.e. `findPairL suffix = some 0`. -/
def messageLoop : List String → List String × String × Nat
  | [] => ([], "", 0)
  | raw :: rest =>
    let stripped := pyStrip raw
    if isoPrefixMatch stripped then ([], stripped, 1)
    else if findPairL (raw :: rest) = some 0 then ([], "", 0)
    else if PROVIDERS.contains (pyLower stripped) || REGIONS.contains stripped then ([], "", 0)
    else if stripped.data.contains '@' || STATUSES.contains (pyLower stripped)
        || CHANNELS.contains (pyLower stripped) then ([], "", 0)
    else
      let next_token := pyStrip (rest.headD "")
      if next_token ≠ "" ∧ is_number next_token then ([], "", 0)
      else
        let r := messageLoop rest
        (raw :: r.1, r.2.1, r.2.2 + 1)

/-- `",".join(parts)` on character lists. -/
def joinComma (parts : List String) : List Char :=
  List.intercalate [','] (parts.map String.data)

/-- One step of the provider/region truncation loops (lines 205-219): find
the first token of `tokens` whose marker `","+token.lower()` occurs in the
lowercased message and truncate at that occurrence. -/
def markerOf (t : String) : List Char := ',' :: pyLowerL t.data

/-- First index at which `pat` occurs in `l` (Python `str.find`). -/
def firstOccurIdx (pat : List Char) : List Char → Option Nat
  | [] => if pat.isPrefixOf ([] : List Char) then some 0 else none
  | c :: t =>
    if pat.isPrefixOf (c :: t) then some 0
    else (firstOccurIdx pat t).map (· + 1)

def truncAtFirstMarker (tokens : List String) (msg : List Char) : List Char :=
  match tokens with
  | [] => msg
  | t :: ts =>
    match firstOccurIdx (markerOf t) (pyLowerL msg) with
    | some p => msg.take p
    | none => truncAtFirstMarker ts msg

/-- Lines 204-219: the provider pass followed by the region pass. -/
def truncMessage (msg : List Char) : List Char :=
  truncAtFirstMarker REGIONS (truncAtFirstMarker PROVIDERS msg)

/-- Lines 203-221: join, strip, truncate (non-empty messages only), and
strip one layer of wrapping quotes. -/
def postProcessMessage (parts : List String) : String :=
  let message := pyStripL (joinComma parts)
  let message := if message ≠ [] then truncMessage message else message
  let message :=
    if message.head? = some '"' ∧ message.getLast? = some '"'
    then (message.drop 1).dropLast else message
  ⟨message⟩

inductive StepResult where
  | stop : StepResult
  | incomplete (next : Nat) : StepResult
  | emit (t : Txn) (next : Nat) : StepResult
deriving DecidableEq, Repr

/-- Lines 159-161: skip the optional `live`/`test` mode column. -/
def modeSkip (row : List String) (i4 : Nat) : Nat :=
  if i4 < row.length ∧
      (pyLower (pyStrip (row.getD i4 "")) = "live" ∨ pyLower (pyStrip (row.getD i4 "")) = "test")
  then i4 + 1 else i4

/-- Lines 139-144 and 162-171: the non-empty trimmed tokens collected
before the status cell, and the chosen customer id (first cell containing
`@`, else the first candidate, else empty; then trim whitespace and
quote characters). -/
def customerOf (row : List String) (start i1 : Nat) : String :=
  let customer_parts := (((row.drop start).take (i1 - start)).map pyStrip).filter (· ≠ "")
  let c0 := match customer_parts.find? (fun t => t.data.contains '@') with
    | some t => t
    | none => customer_parts.headD ""
  ⟨stripCharL '"' (pyStripL c0.data)⟩

/-- One iteration of the `while i < n` loop of `extract_transactions`
starting at scan position `i`: either no boundary is found (`stop`), the
candidate is incomplete and scanning resumes at `boundary + 1`
(`incomplete`), or a candidate is emitted together with the resume
offset (`emit`). -/
def extractStep (row : List String) (default_dt : String) (i : Nat) : StepResult :=
  match findNextProviderIndex row i with
  | none => .stop
  | some b =>
    match findFromIdx statusPred row (b + 2) with
    | none => .incomplete (b + 1)
    | some i1 =>
      match findFromIdx channelPred row (i1 + 1) with
      | none => .incomplete (b + 1)
      | some i3 =>
        let i5 := modeSkip row (i3 + 1)
        let ml := messageLoop (row.drop i5)
        .emit { provider := pyLower (pyStrip (row.getD b "")),
                region := pyStrip (row.getD (b + 1) ""),
                status := pyLower (pyStrip (row.getD i1 "")),
                channel := pyLower (pyStrip (row.getD i3 "")),
                message := postProcessMessage ml.1,
                payment_date := if ml.2.1 = "" then default_dt else ml.2.1,
                customer := customerOf row (b + 2) i1 }
          (i5 + ml.2.2)

/-- The scan loop, with explicit fuel (each iteration strictly increases
the scan position, so `row.length + 1` fuel always suffices — proved in
the termination theorem below). -/
def extractLoopFuel (row : List String) (default_dt : String) : Nat → Nat → List Txn
  | 0, _ => []
  | fuel + 1, i =>
    match extractStep row default_dt i with
    | .stop => []
    | .incomplete j => extractLoopFuel row default_dt fuel j
    | .emit t j => t :: extractLoopFuel row default_dt fuel j

/-- `extract_transactions(row, default_dt)` as a list. -/
def extract_transactions (row : List String) (default_dt : String) : List Txn :=
  extractLoopFuel row default_dt (row.length + 1) 0

/-! ## The Aggregator (`parse_csv`, lines 228-290)

`Counter` / `defaultdict` state is modelled with total functions (absent
keys are `0` / empty), which is exactly Python's default-construction
semantics.  Datetimes are opaque: the external
`datetime.fromisoformat` is an abstract parameter
`parseIso : String → Option String` (`none` = `ValueError`), and a
resolved timestamp is carried as the `String` witness it returned. -/

structure ProviderSummary where
  status_counts : String → Nat
  channel_counts : String → Nat
  messages_by_status : String → String → Nat

structure RegionSummary where
  times : List String
  status_counts : String → Nat
  channel_counts : String → Nat
  messages_by_status : String → String → Nat
  providers : String → ProviderSummary

def emptyProvider : ProviderSummary :=
  { status_counts := fun _ => 0, channel_counts := fun _ => 0,
    messages_by_status := fun _ _ => 0 }

def emptyRegion : RegionSummary :=
  { times := [], status_counts := fun _ => 0, channel_counts := fun _ => 0,
    messages_by_status := fun _ _ => 0, providers := fun _ => emptyProvider }

/-- `counter[k] += 1`. -/
def bump (f : String → Nat) (k : String) : String → Nat :=
  fun x => if x = k then f x + 1 else f x

/-- `nested[k1][k2] += 1`. -/
def bump2 (f : String → String → Nat) (k1 k2 : String) : String → String → Nat :=
  fun x y => if x = k1 ∧ y = k2 then f x y + 1 else f x y

/-- The three `provider_summary.* += 1` increments (lines 281-283 /
286-288). -/
def addToProvider (ps : ProviderSummary) (status channel msg : String) : ProviderSummary :=
  { status_counts := bump ps.status_counts status,
    channel_counts := bump ps.channel_counts channel,
    messages_by_status := bump2 ps.messages_by_status status msg }

/-- All increments applied to one `RegionSummary` during the ingestion of
one record (lines 268-288 touch the target region and the Aggregate with
exactly this bundle each). -/
def addToRegion (rs : RegionSummary) (dt : Option String)
    (provider status channel msg : String) : RegionSummary :=
  { times := match dt with
      | some d => rs.times ++ [d]
      | none => rs.times,
    status_counts := bump rs.status_counts status,
    channel_counts := bump rs.channel_counts channel,
    messages_by_status := bump2 rs.messages_by_status status msg,
    providers := fun p =>
      if p = provider then addToProvider (rs.providers p) status channel msg
      else rs.providers p }

/-- One element of the `transactions` result list (line 264). -/
structure TxnOut where
  provider : String
  region : String
  status : String
  channel : String
  norm_message : String
  dt : Option String
  customer : String
deriving DecidableEq, Repr

structure AggState where
  summaries : String → RegionSummary
  transactions : List TxnOut

def initAggState : AggState := { summaries := fun _ => emptyRegion, transactions := [] }

/-- Line 252-253: the channel coercion. -/
def coercedChannel (c : Txn) : String :=
  if CHANNELS.contains c.channel then c.channel else "other"

/-- Lines 263-288: the mutations applied once a candidate passed the gate
and its timestamp resolved to `dt` (`none` = the missing-date sentinel):
append the transaction tuple and double-write all counters into the
target region and the Aggregate. -/
def ingestAccepted (st : AggState) (c : Txn) (dt : Option String) : AggState :=
  let channel := coercedChannel c
  let norm := normaliseMessage c.message
  let out : TxnOut :=
    { provider := c.provider, region := c.region, status := c.status, channel := channel,
      norm_message := norm, dt := dt, customer := c.customer }
  let S := st.summaries
  let S1 := fun r =>
    if r = c.region then addToRegion (S r) dt c.provider c.status channel norm else S r
  let S2 := fun r =>
    if r = "Aggregate" then addToRegion (S1 r) dt c.provider c.status channel norm else S1 r
  { summaries := S2, transactions := st.transactions ++ [out] }

/-- Lines 255-261: resolve the payment date.  A parse success yields a
timestamp, a parse failure on the missing-date placeholder yields the
sentinel (`some none`), any other parse failure discards the record
(`none`). -/
def resolveDate (parseIso : String → Option String) (payment_date : String) :
    Option (Option String) :=
  match parseIso ⟨replaceCharL 'Z' "+00:00".data payment_date.data⟩ with
  | some d => some (some d)
  | none => if payment_date = DEFAULT_DATE_PLACEHOLDER then some none else none

/-- The body of the `for … in extract_transactions(row, default_dt)` loop
(lines 247-288): validation gate, timestamp resolution, and the
double-write into the target region and the Aggregate. -/
def processCandidate (parseIso : String → Option String) (st : AggState) (c : Txn) : AggState :=
  if !REGIONS.contains c.region && c.region != "Aggregate" then st
  else if !STATUSES.contains c.status then st
  else
    match resolveDate parseIso c.payment_date with
    | none => st
    | some dt => ingestAccepted st c dt

/-- `default_dt` derivation from the header row (lines 238-242). -/
def headerDefault (header : List String) : String :=
  match header.find? (fun col => isoPrefixMatch (pyStrip col)) with
  | some col => pyStrip col
  | none => DEFAULT_DATE_PLACEHOLDER

/-- One data row of the `for row in reader` loop (lines 244-288). -/
def processRow (parseIso : String → Option String) (default_dt : String)
    (st : AggState) (row : List String) : AggState :=
  if row = [] then st
  else (extract_transactions row default_dt).foldl (processCandidate parseIso) st

/-- The whole single pass of `parse_csv` over the parsed cell rows (file
and CSV-dialect handling abstracted away; an empty file raises before this
point). -/
def parseCSVModel (parseIso : String → Option String)
    (header : List String) (rows : List (List String)) : AggState :=
  rows.foldl (processRow parseIso (headerDefault header)) initAggState

/-- The Aggregate roll-up invariant: every counter of the `"Aggregate"`
summary (and of each of its provider buckets) equals the sum of the
corresponding counters over the five real regions, and the Aggregate
timestamp list holds exactly (as a multiset) the timestamps of the real
regions. -/
def AggInvariant (S : String → RegionSummary) : Prop :=
  (∀ k, (S "Aggregate").status_counts k =
    (REGIONS.map fun r => (S r).status_counts k).sum) ∧
  (∀ k, (S "Aggregate").channel_counts k =
    (REGIONS.map fun r => (S r).channel_counts k).sum) ∧
  (∀ st m, (S "Aggregate").messages_by_status st m =
    (REGIONS.map fun r => (S r).messages_by_status st m).sum) ∧
  (∀ x, (S "Aggregate").times.count x =
    (REGIONS.map fun r => (S r).times.count x).sum) ∧
  (∀ p k, ((S "Aggregate").providers p).status_counts k =
    (REGIONS.map fun r => ((S r).providers p).status_counts k).sum) ∧
  (∀ p k, ((S "Aggregate").providers p).channel_counts k =
    (REGIONS.map fun r => ((S r).providers p).channel_counts k).sum) ∧
  (∀ p st m, ((S "Aggregate").providers p).messages_by_status st m =
    (REGIONS.map fun r => ((S r).providers p).messages_by_status st m).sum)

/-! ## Helper lemmas -/

lemma getD_drop {α : Type} {d : α} (l : List α) (i j : Nat) :
    (l.drop i).getD j d = l.getD (i + j) d := by
  induction l generalizing i j with
  | nil => simp
  | cons a t ih =>
    cases i with
    | zero => simp
    | succ i =>
      simp only [List.drop_succ_cons]
      rw [ih]
      have : i + 1 + j = (i + j) + 1 := by omega
      rw [this]
      simp

lemma dropWhile_eq_self_of_head {p : Char → Bool} {l : List Char}
    (h : ∀ c, l.head? = some c → p c = false) : l.dropWhile p = l := by
  cases l with
  | nil => rfl
  | cons c t =>
    have hc : p c = false := h c rfl
    simp [List.dropWhile, hc]

lemma pyStripL_eq_self {l : List Char}
    (h1 : ∀ c, l.head? = some c → isPySpace c = false)
    (h2 : ∀ c, l.getLast? = some c → isPySpace c = false) : pyStripL l = l := by
  unfold pyStripL
  rw [dropWhile_eq_self_of_head h1]
  rw [dropWhile_eq_self_of_head (by
    intro c hc
    rw [List.head?_reverse] at hc
    exact h2 c hc)]
  exact List.reverse_reverse l

lemma stripCharL_eq_self {q : Char} {l : List Char}
    (h1 : ∀ c, l.head? = some c → (c == q) = false)
    (h2 : ∀ c, l.getLast? = some c → (c == q) = false) : stripCharL q l = l := by
  unfold stripCharL
  rw [dropWhile_eq_self_of_head h1]
  rw [dropWhile_eq_self_of_head (by
    intro c hc
    rw [List.head?_reverse] at hc
    exact h2 c hc)]
  exact List.reverse_reverse l

lemma findPairL_pred : ∀ (l : List String) (k : Nat), findPairL l = some k →
    pairPred (l.getD k "") (l.getD (k + 1) "") = true := by
  intro l
  induction l with
  | nil => intro k h; simp [findPairL] at h
  | cons a t ih =>
    intro k h
    cases t with
    | nil => simp [findPairL] at h
    | cons b t2 =>
      rw [findPairL] at h
      by_cases hp : pairPred a b = true
      · rw [if_pos hp] at h
        cases h
        simpa using hp
      · rw [if_neg hp] at h
        simp only [Option.map_eq_some'] at h
        obtain ⟨k1, hk1, hk⟩ := h
        subst hk
        simpa using ih k1 hk1

lemma findPairL_bound : ∀ (l : List String) (k : Nat), findPairL l = some k →
    k + 2 ≤ l.length := by
  intro l
  induction l with
  | nil => intro k h; simp [findPairL] at h
  | cons a t ih =>
    intro k h
    cases t with
    | nil => simp [findPairL] at h
    | cons b t2 =>
      rw [findPairL] at h
      by_cases hp : pairPred a b = true
      · rw [if_pos hp] at h
        cases h
        simp
      · rw [if_neg hp] at h
        simp only [Option.map_eq_some'] at h
        obtain ⟨k1, hk1, hk⟩ := h
        subst hk
        have := ih k1 hk1
        simp only [List.length_cons] at this ⊢
        omega

lemma findNextProviderIndex_spec {row : List String} {i b : Nat}
    (h : findNextProviderIndex row i = some b) :
    i ≤ b ∧ b + 2 ≤ row.length ∧
      pairPred (row.getD b "") (row.getD (b + 1) "") = true := by
  unfold findNextProviderIndex at h
  simp only [Option.map_eq_some'] at h
  obtain ⟨k, hk, hb⟩ := h
  subst hb
  have hpred := findPairL_pred _ _ hk
  have hbd := findPairL_bound _ _ hk
  rw [getD_drop, getD_drop] at hpred
  have hlen : (row.drop i).length = row.length - i := List.length_drop i row
  constructor
  · omega
  constructor
  · omega
  · have h1 : i + k = k + i := Nat.add_comm i k
    have h2 : i + (k + 1) = k + i + 1 := by omega
    rw [h1, h2] at hpred
    exact hpred

lemma findIdxL_pred {p : String → Bool} : ∀ (l : List String) (k : Nat),
    findIdxL p l = some k → p (l.getD k "") = true := by
  intro l
  induction l with
  | nil => intro k h; simp [findIdxL] at h
  | cons a t ih =>
    intro k h
    rw [findIdxL] at h
    by_cases hp : p a = true
    · rw [if_pos hp] at h
      cases h
      simpa using hp
    · rw [if_neg hp] at h
      simp only [Option.map_eq_some'] at h
      obtain ⟨k1, hk1, hk⟩ := h
      subst hk
      simpa using ih k1 hk1

lemma findFromIdx_spec {p : String → Bool} {row : List String} {i j : Nat}
    (h : findFromIdx p row i = some j) :
    i ≤ j ∧ p (row.getD j "") = true := by
  unfold findFromIdx at h
  simp only [Option.map_eq_some'] at h
  obtain ⟨k, hk, hj⟩ := h
  subst hj
  have hpred := findIdxL_pred _ _ hk
  rw [getD_drop] at hpred
  rw [Nat.add_comm i k] at hpred
  exact ⟨by omega, hpred⟩

lemma messageLoop_cons (raw : String) (rest : List String) :
    messageLoop (raw :: rest) =
      (if isoPrefixMatch (pyStrip raw) then ([], pyStrip raw, 1)
       else if findPairL (raw :: rest) = some 0 then ([], "", 0)
       else if PROVIDERS.contains (pyLower (pyStrip raw))
           || REGIONS.contains (pyStrip raw) then ([], "", 0)
       else if (pyStrip raw).data.contains '@' || STATUSES.contains (pyLower (pyStrip raw))
           || CHANNELS.contains (pyLower (pyStrip raw)) then ([], "", 0)
       else
         let next_token := pyStrip (rest.headD "")
         if next_token ≠ "" ∧ is_number next_token then ([], "", 0)
         else
           let r := messageLoop rest
           (raw :: r.1, r.2.1, r.2.2 + 1)) := rfl

lemma messageLoop_date : ∀ l : List String,
    (messageLoop l).2.1 = "" ∨ isoPrefixMatch (messageLoop l).2.1 = true := by
  intro l
  induction l with
  | nil => left; rfl
  | cons raw rest ih =>
    rw [messageLoop_cons]
    by_cases h1 : isoPrefixMatch (pyStrip raw) = true
    · rw [if_pos h1]
      right
      exact h1
    · rw [if_neg (by simpa using h1)]
      split
      · left; rfl
      · split
        · left; rfl
        · split
          · left; rfl
          · dsimp only
            split
            · left; rfl
            · exact ih

/-- The shape of an `emit` outcome of one extractor iteration. -/
lemma extractStep_emit_spec {row : List String} {d : String} {i : Nat} {t : Txn} {j : Nat}
    (h : extractStep row d i = .emit t j) :
    ∃ b i1 i3, findNextProviderIndex row i = some b
      ∧ findFromIdx statusPred row (b + 2) = some i1
      ∧ findFromIdx channelPred row (i1 + 1) = some i3
      ∧ i3 + 1 ≤ j
      ∧ t.region = pyStrip (row.getD (b + 1) "")
      ∧ t.channel = pyLower (pyStrip (row.getD i3 ""))
      ∧ (t.payment_date = d ∨ isoPrefixMatch t.payment_date = true) := by
  unfold extractStep at h
  split at h
  · simp at h
  next b hb =>
    split at h
    · simp at h
    next i1 hs =>
      split at h
      · simp at h
      next i3 hc =>
        simp only [StepResult.emit.injEq] at h
        obtain ⟨ht, hj⟩ := h
        refine ⟨b, i1, i3, hb, hs, hc, ?_, ?_, ?_, ?_⟩
        · have : modeSkip row (i3 + 1) ≥ i3 + 1 := by
            unfold modeSkip
            split <;> omega
          omega
        · rw [← ht]
        · rw [← ht]
        · rw [← ht]
          simp only []
          by_cases hml : (messageLoop (row.drop (modeSkip row (i3 + 1)))).2.1 = ""
          · left
            simp [hml]
          · right
            rcases messageLoop_date (row.drop (modeSkip row (i3 + 1))) with h0 | h0
            · exact absurd h0 hml
            · simpa [hml] using h0

/-- The shape of an `incomplete` outcome of one extractor iteration. -/
lemma extractStep_incomplete_spec {row : List String} {d : String} {i j : Nat}
    (h : extractStep row d i = .incomplete j) :
    ∃ b, findNextProviderIndex row i = some b ∧ j = b + 1 := by
  unfold extractStep at h
  split at h
  · simp at h
  next b hb =>
    split at h
    next =>
      simp only [StepResult.incomplete.injEq] at h
      exact ⟨b, hb, h.symm⟩
    next i1 hs =>
      split at h
      next =>
        simp only [StepResult.incomplete.injEq] at h
        exact ⟨b, hb, h.symm⟩
      next i3 hc =>
        simp at h

/-- Strict forward progress: a non-`stop` iteration moves the scan
position strictly forward, within the row. -/
lemma extractStep_progress (row : List String) (d : String) (i : Nat) :
    (∀ t j, extractStep row d i = .emit t j → i < j ∧ i < row.length) ∧
    (∀ j, extractStep row d i = .incomplete j → i < j ∧ i < row.length) := by
  constructor
  · intro t j h
    obtain ⟨b, i1, i3, hb, hs, hc, hj, -⟩ := extractStep_emit_spec h
    have h1 := findNextProviderIndex_spec hb
    have h2 := findFromIdx_spec hs
    have h3 := findFromIdx_spec hc
    omega
  · intro j h
    obtain ⟨b, hb, hj⟩ := extractStep_incomplete_spec h
    have h1 := findNextProviderIndex_spec hb
    omega

/-- Out of the row, the scan stops. -/
lemma extractStep_stop_of_ge (row : List String) (d : String) {i : Nat}
    (h : row.length ≤ i) : extractStep row d i = .stop := by
  unfold extractStep
  have hdrop : row.drop i = [] := List.drop_eq_nil_of_le h
  unfold findNextProviderIndex
  rw [hdrop]
  rfl

lemma extractLoopFuel_zero (row : List String) (d : String) (i : Nat) :
    extractLoopFuel row d 0 i = [] := rfl

lemma extractLoopFuel_succ (row : List String) (d : String) (fuel i : Nat) :
    extractLoopFuel row d (fuel + 1) i =
      (match extractStep row d i with
       | .stop => []
       | .incomplete j => extractLoopFuel row d fuel j
       | .emit t j => t :: extractLoopFuel row d fuel j) := rfl

/-- Any fuel of at least `row.length + 1 - i` computes the same scan
result: the loop terminates within `row.length - i` boundary attempts. -/
lemma extractLoopFuel_stable (row : List String) (d : String) :
    ∀ (fuel i : Nat), row.length + 1 - i ≤ fuel →
      extractLoopFuel row d fuel i = extractLoopFuel row d (row.length + 1 - i) i := by
  intro fuel
  induction fuel using Nat.strong_induction_on with
  | _ fuel ih =>
    intro i hle
    match fuel, hle with
    | 0, hle =>
      have : row.length + 1 - i = 0 := by omega
      rw [this]
    | fuel + 1, hle =>
      by_cases hge : row.length ≤ i
      · have hstop := extractStep_stop_of_ge row d hge
        cases hn : row.length + 1 - i with
        | zero => simp only [extractLoopFuel_succ, hstop, extractLoopFuel_zero]
        | succ m => simp only [extractLoopFuel_succ, hstop]
      · push_neg at hge
        have hn : ∃ m, row.length + 1 - i = m + 1 := ⟨row.length - i, by omega⟩
        obtain ⟨m, hm⟩ := hn
        rw [hm]
        cases hstep : extractStep row d i with
        | stop => simp only [extractLoopFuel_succ, hstep]
        | incomplete j =>
          have hp := (extractStep_progress row d i).2 j hstep
          have e1 : extractLoopFuel row d fuel j = extractLoopFuel row d (row.length + 1 - j) j :=
            ih fuel (by omega) j (by omega)
          have e2 : extractLoopFuel row d m j = extractLoopFuel row d (row.length + 1 - j) j :=
            ih m (by omega) j (by omega)
          simp only [extractLoopFuel_succ, hstep]
          rw [e1, e2]
        | emit t j =>
          have hp := (extractStep_progress row d i).1 t j hstep
          have e1 : extractLoopFuel row d fuel j = extractLoopFuel row d (row.length + 1 - j) j :=
            ih fuel (by omega) j (by omega)
          have e2 : extractLoopFuel row d m j = extractLoopFuel row d (row.length + 1 - j) j :=
            ih m (by omega) j (by omega)
          simp only [extractLoopFuel_succ, hstep]
          rw [e1, e2]

/-! ### Increment projection lemmas -/

lemma bump_apply (f : String → Nat) (k x : String) :
    bump f k x = f x + (if x = k then 1 else 0) := by
  unfold bump
  split <;> simp

lemma bump2_apply (f : String → String → Nat) (k1 k2 x y : String) :
    bump2 f k1 k2 x y = f x y + (if x = k1 ∧ y = k2 then 1 else 0) := by
  unfold bump2
  split <;> simp_all

lemma count_append_singleton (l : List String) (d x : String) :
    (l ++ [d]).count x = l.count x + (if x = d then 1 else 0) := by
  rw [List.count_append]
  congr 1
  by_cases h : x = d
  · subst h; simp
  · simp [List.count_singleton', h, Ne.symm h]

lemma addToRegion_status_apply (rs : RegionSummary) (dt : Option String)
    (p s ch m k : String) :
    (addToRegion rs dt p s ch m).status_counts k =
      rs.status_counts k + (if k = s then 1 else 0) := by
  unfold addToRegion
  exact bump_apply _ _ _

lemma addToRegion_channel_apply (rs : RegionSummary) (dt : Option String)
    (p s ch m k : String) :
    (addToRegion rs dt p s ch m).channel_counts k =
      rs.channel_counts k + (if k = ch then 1 else 0) := by
  unfold addToRegion
  exact bump_apply _ _ _

lemma addToRegion_messages_apply (rs : RegionSummary) (dt : Option String)
    (p s ch m st' m' : String) :
    (addToRegion rs dt p s ch m).messages_by_status st' m' =
      rs.messages_by_status st' m' + (if st' = s ∧ m' = m then 1 else 0) := by
  unfold addToRegion
  exact bump2_apply _ _ _ _ _

lemma addToRegion_times_count (rs : RegionSummary) (dt : Option String)
    (p s ch m x : String) :
    (addToRegion rs dt p s ch m).times.count x =
      rs.times.count x +
        (match dt with
         | some d => if x = d then 1 else 0
         | none => 0) := by
  unfold addToRegion
  cases dt with
  | none => simp
  | some d => exact count_append_singleton _ _ _

lemma addToRegion_providers_status (rs : RegionSummary) (dt : Option String)
    (p s ch m q k : String) :
    ((addToRegion rs dt p s ch m).providers q).status_counts k =
      (rs.providers q).status_counts k + (if q = p ∧ k = s then 1 else 0) := by
  unfold addToRegion
  simp only []
  by_cases hq : q = p
  · rw [if_pos hq]
    unfold addToProvider
    dsimp only
    rw [bump_apply]
    simp [hq]
  · rw [if_neg hq]
    simp [hq]

lemma addToRegion_providers_channel (rs : RegionSummary) (dt : Option String)
    (p s ch m q k : String) :
    ((addToRegion rs dt p s ch m).providers q).channel_counts k =
      (rs.providers q).channel_counts k + (if q = p ∧ k = ch then 1 else 0) := by
  unfold addToRegion
  simp only []
  by_cases hq : q = p
  · rw [if_pos hq]
    unfold addToProvider
    dsimp only
    rw [bump_apply]
    simp [hq]
  · rw [if_neg hq]
    simp [hq]

lemma addToRegion_providers_messages (rs : RegionSummary) (dt : Option String)
    (p s ch m q st' m' : String) :
    ((addToRegion rs dt p s ch m).providers q).messages_by_status st' m' =
      (rs.providers q).messages_by_status st' m' +
        (if q = p ∧ st' = s ∧ m' = m then 1 else 0) := by
  unfold addToRegion
  simp only []
  by_cases hq : q = p
  · rw [if_pos hq]
    unfold addToProvider
    dsimp only
    rw [bump2_apply]
    simp [hq]
  · rw [if_neg hq]
    simp [hq]

lemma addToRegion_times (rs : RegionSummary) (dt : Option String) (p s ch m : String) :
    (addToRegion rs dt p s ch m).times =
      (match dt with
       | some d => rs.times ++ [d]
       | none => rs.times) := rfl

/-! ### Sum-over-regions lemmas -/

lemma map_eq_of_forall_ne {f h : String → Nat} :
    ∀ (l : List String), (∀ r ∈ l, f r = h r) → l.map f = l.map h :=
  fun _ hl => List.map_congr_left hl

lemma sum_ite_update (f : String → Nat) (δ : Nat) (g : String) :
    ∀ (l : List String), l.Nodup → g ∈ l →
      (l.map fun r => if r = g then f r + δ else f r).sum = (l.map f).sum + δ := by
  intro l
  induction l with
  | nil => intro _ h; cases h
  | cons a t ih =>
    intro hnd hmem
    have hnd' := List.nodup_cons.mp hnd
    simp only [List.map_cons, List.sum_cons]
    rcases List.mem_cons.mp hmem with hag | hgt
    · rw [if_pos hag.symm]
      have hmap : t.map (fun r => if r = g then f r + δ else f r) = t.map f := by
        apply map_eq_of_forall_ne
        intro r hr
        rw [if_neg]
        intro hrg
        rw [hrg] at hr
        rw [hag] at hr
        exact hnd'.1 hr
      rw [hmap]
      omega
    · have hag : a ≠ g := by
        intro heq
        rw [heq] at hnd'
        exact hnd'.1 hgt
      rw [if_neg hag, ih hnd'.2 hgt]
      omega

/-! ### `processCandidate` case lemmas -/

lemma ingestAccepted_summaries (st : AggState) (c : Txn) (dt : Option String) (r : String) :
    (ingestAccepted st c dt).summaries r =
      (if r = "Aggregate" then
        addToRegion
          (if r = c.region then
            addToRegion (st.summaries r) dt c.provider c.status (coercedChannel c)
              (normaliseMessage c.message)
           else st.summaries r)
          dt c.provider c.status (coercedChannel c) (normaliseMessage c.message)
       else
        (if r = c.region then
          addToRegion (st.summaries r) dt c.provider c.status (coercedChannel c)
            (normaliseMessage c.message)
         else st.summaries r)) := rfl

lemma ingestAccepted_transactions (st : AggState) (c : Txn) (dt : Option String) :
    (ingestAccepted st c dt).transactions =
      st.transactions ++
        [{ provider := c.provider, region := c.region, status := c.status,
           channel := coercedChannel c, norm_message := normaliseMessage c.message,
           dt := dt, customer := c.customer }] := rfl

lemma processCandidate_gate1 {P : String → Option String} {st : AggState} {c : Txn}
    (h : (!REGIONS.contains c.region && c.region != "Aggregate") = true) :
    processCandidate P st c = st := by
  unfold processCandidate
  rw [if_pos h]

lemma processCandidate_status_invalid {P : String → Option String} {st : AggState} {c : Txn}
    (h : STATUSES.contains c.status = false) :
    processCandidate P st c = st := by
  unfold processCandidate
  split
  · rfl
  · rw [if_pos (by rw [h]; rfl)]

lemma processCandidate_parsefail {P : String → Option String} {st : AggState} {c : Txn}
    (hpd : c.payment_date ≠ DEFAULT_DATE_PLACEHOLDER)
    (hP : P ⟨replaceCharL 'Z' "+00:00".data c.payment_date.data⟩ = none) :
    processCandidate P st c = st := by
  unfold processCandidate
  split
  · rfl
  · split
    · rfl
    · unfold resolveDate
      rw [hP]
      rw [if_neg hpd]

lemma processCandidate_accept {P : String → Option String} {st : AggState} {c : Txn}
    {dt : Option String}
    (hg1 : (!REGIONS.contains c.region && c.region != "Aggregate") = false)
    (hg2 : STATUSES.contains c.status = true)
    (hdt : resolveDate P c.payment_date = some dt) :
    processCandidate P st c = ingestAccepted st c dt := by
  unfold processCandidate
  rw [if_neg (by rw [hg1]; exact Bool.false_ne_true)]
  rw [if_neg (by rw [hg2]; exact Bool.false_ne_true)]
  rw [hdt]

lemma regions_nodup : REGIONS.Nodup := by decide

lemma aggregate_not_region : "Aggregate" ∉ REGIONS := by decide

lemma other_not_channel : "other" ∉ CHANNELS := by decide

/-! ### Preservation of the Aggregate invariant -/

lemma ingest_preserves_inv {st : AggState} {c : Txn} {dt : Option String}
    (hreg : c.region ∈ REGIONS) (hInv : AggInvariant st.summaries) :
    AggInvariant (ingestAccepted st c dt).summaries := by
  have hgA : "Aggregate" ≠ c.region := by
    intro h
    rw [← h] at hreg
    exact aggregate_not_region hreg
  have hrA : ∀ r ∈ REGIONS, r ≠ "Aggregate" := by
    intro r hr h
    rw [h] at hr
    exact aggregate_not_region hr
  obtain ⟨h1, h2, h3, h4, h5, h6, h7⟩ := hInv
  refine ⟨?_, ?_, ?_, ?_, ?_, ?_, ?_⟩
  · intro k
    have hL : ((ingestAccepted st c dt).summaries "Aggregate").status_counts k
        = (st.summaries "Aggregate").status_counts k + (if k = c.status then 1 else 0) := by
      rw [ingestAccepted_summaries, if_pos rfl, if_neg hgA, addToRegion_status_apply]
    have hR : REGIONS.map (fun r => ((ingestAccepted st c dt).summaries r).status_counts k)
        = REGIONS.map (fun r =>
            if r = c.region
            then (st.summaries r).status_counts k + (if k = c.status then 1 else 0)
            else (st.summaries r).status_counts k) := by
      apply List.map_congr_left
      intro r hr
      rw [ingestAccepted_summaries, if_neg (hrA r hr)]
      by_cases hrg : r = c.region
      · rw [if_pos hrg, if_pos hrg, addToRegion_status_apply]
      · rw [if_neg hrg, if_neg hrg]
    rw [hL, hR,
      sum_ite_update (fun r => (st.summaries r).status_counts k) _ c.region
        REGIONS regions_nodup hreg, h1 k]
  · intro k
    have hL : ((ingestAccepted st c dt).summaries "Aggregate").channel_counts k
        = (st.summaries "Aggregate").channel_counts k
            + (if k = coercedChannel c then 1 else 0) := by
      rw [ingestAccepted_summaries, if_pos rfl, if_neg hgA, addToRegion_channel_apply]
    have hR : REGIONS.map (fun r => ((ingestAccepted st c dt).summaries r).channel_counts k)
        = REGIONS.map (fun r =>
            if r = c.region
            then (st.summaries r).channel_counts k + (if k = coercedChannel c then 1 else 0)
            else (st.summaries r).channel_counts k) := by
      apply List.map_congr_left
      intro r hr
      rw [ingestAccepted_summaries, if_neg (hrA r hr)]
      by_cases hrg : r = c.region
      · rw [if_pos hrg, if_pos hrg, addToRegion_channel_apply]
      · rw [if_neg hrg, if_neg hrg]
    rw [hL, hR,
      sum_ite_update (fun r => (st.summaries r).channel_counts k) _ c.region
        REGIONS regions_nodup hreg, h2 k]
  · intro stt m
    have hL : ((ingestAccepted st c dt).summaries "Aggregate").messages_by_status stt m
        = (st.summaries "Aggregate").messages_by_status stt m
            + (if stt = c.status ∧ m = normaliseMessage c.message then 1 else 0) := by
      rw [ingestAccepted_summaries, if_pos rfl, if_neg hgA, addToRegion_messages_apply]
    have hR : REGIONS.map (fun r => ((ingestAccepted st c dt).summaries r).messages_by_status stt m)
        = REGIONS.map (fun r =>
            if r = c.region
            then (st.summaries r).messages_by_status stt m
                + (if stt = c.status ∧ m = normaliseMessage c.message then 1 else 0)
            else (st.summaries r).messages_by_status stt m) := by
      apply List.map_congr_left
      intro r hr
      rw [ingestAccepted_summaries, if_neg (hrA r hr)]
      by_cases hrg : r = c.region
      · rw [if_pos hrg, if_pos hrg, addToRegion_messages_apply]
      · rw [if_neg hrg, if_neg hrg]
    rw [hL, hR,
      sum_ite_update (fun r => (st.summaries r).messages_by_status stt m) _ c.region
        REGIONS regions_nodup hreg, h3 stt m]
  · intro x
    obtain ⟨δ, hδ⟩ : ∃ δ : Nat,
        (match dt with
         | some d => if x = d then 1 else 0
         | none => 0) = δ := ⟨_, rfl⟩
    have hL : ((ingestAccepted st c dt).summaries "Aggregate").times.count x
        = (st.summaries "Aggregate").times.count x + δ := by
      rw [ingestAccepted_summaries, if_pos rfl, if_neg hgA, addToRegion_times_count, hδ]
    have hR : REGIONS.map (fun r => ((ingestAccepted st c dt).summaries r).times.count x)
        = REGIONS.map (fun r =>
            if r = c.region
            then (st.summaries r).times.count x + δ
            else (st.summaries r).times.count x) := by
      apply List.map_congr_left
      intro r hr
      rw [ingestAccepted_summaries, if_neg (hrA r hr)]
      by_cases hrg : r = c.region
      · rw [if_pos hrg, if_pos hrg, addToRegion_times_count, hδ]
      · rw [if_neg hrg, if_neg hrg]
    rw [hL, hR,
      sum_ite_update (fun r => (st.summaries r).times.count x) δ c.region
        REGIONS regions_nodup hreg, h4 x]
  · intro p k
    have hL : (((ingestAccepted st c dt).summaries "Aggregate").providers p).status_counts k
        = ((st.summaries "Aggregate").providers p).status_counts k
            + (if p = c.provider ∧ k = c.status then 1 else 0) := by
      rw [ingestAccepted_summaries, if_pos rfl, if_neg hgA, addToRegion_providers_status]
    have hR : REGIONS.map
          (fun r => (((ingestAccepted st c dt).summaries r).providers p).status_counts k)
        = REGIONS.map (fun r =>
            if r = c.region
            then ((st.summaries r).providers p).status_counts k
                + (if p = c.provider ∧ k = c.status then 1 else 0)
            else ((st.summaries r).providers p).status_counts k) := by
      apply List.map_congr_left
      intro r hr
      rw [ingestAccepted_summaries, if_neg (hrA r hr)]
      by_cases hrg : r = c.region
      · rw [if_pos hrg, if_pos hrg, addToRegion_providers_status]
      · rw [if_neg hrg, if_neg hrg]
    rw [hL, hR,
      sum_ite_update (fun r => ((st.summaries r).providers p).status_counts k) _ c.region
        REGIONS regions_nodup hreg, h5 p k]
  · intro p k
    have hL : (((ingestAccepted st c dt).summaries "Aggregate").providers p).channel_counts k
        = ((st.summaries "Aggregate").providers p).channel_counts k
            + (if p = c.provider ∧ k = coercedChannel c then 1 else 0) := by
      rw [ingestAccepted_summaries, if_pos rfl, if_neg hgA, addToRegion_providers_channel]
    have hR : REGIONS.map
          (fun r => (((ingestAccepted st c dt).summaries r).providers p).channel_counts k)
        = REGIONS.map (fun r =>
            if r = c.region
            then ((st.summaries r).providers p).channel_counts k
                + (if p = c.provider ∧ k = coercedChannel c then 1 else 0)
            else ((st.summaries r).providers p).channel_counts k) := by
      apply List.map_congr_left
      intro r hr
      rw [ingestAccepted_summaries, if_neg (hrA r hr)]
      by_cases hrg : r = c.region
      · rw [if_pos hrg, if_pos hrg, addToRegion_providers_channel]
      · rw [if_neg hrg, if_neg hrg]
    rw [hL, hR,
      sum_ite_update (fun r => ((st.summaries r).providers p).channel_counts k) _ c.region
        REGIONS regions_nodup hreg, h6 p k]
  · intro p stt m
    have hL : (((ingestAccepted st c dt).summaries "Aggregate").providers p).messages_by_status stt m
        = ((st.summaries "Aggregate").providers p).messages_by_status stt m
            + (if p = c.provider ∧ stt = c.status ∧ m = normaliseMessage c.message
               then 1 else 0) := by
      rw [ingestAccepted_summaries, if_pos rfl, if_neg hgA, addToRegion_providers_messages]
    have hR : REGIONS.map
          (fun r => (((ingestAccepted st c dt).summaries r).providers p).messages_by_status stt m)
        = REGIONS.map (fun r =>
            if r = c.region
            then ((st.summaries r).providers p).messages_by_status stt m
                + (if p = c.provider ∧ stt = c.status ∧ m = normaliseMessage c.message
                   then 1 else 0)
            else ((st.summaries r).providers p).messages_by_status stt m) := by
      apply List.map_congr_left
      intro r hr
      rw [ingestAccepted_summaries, if_neg (hrA r hr)]
      by_cases hrg : r = c.region
      · rw [if_pos hrg, if_pos hrg, addToRegion_providers_messages]
      · rw [if_neg hrg, if_neg hrg]
    rw [hL, hR,
      sum_ite_update (fun r => ((st.summaries r).providers p).messages_by_status stt m) _ c.region
        REGIONS regions_nodup hreg, h7 p stt m]

lemma processCandidate_preserves_inv (P : String → Option String) (st : AggState) (c : Txn)
    (hreg : c.region ≠ "Aggregate") (hInv : AggInvariant st.summaries) :
    AggInvariant (processCandidate P st c).summaries := by
  unfold processCandidate
  split
  · exact hInv
  next hg1 =>
    split
    · exact hInv
    next hg2 =>
      split
      · exact hInv
      next dt hdt =>
        apply ingest_preserves_inv ?_ hInv
        by_cases hc : REGIONS.contains c.region = true
        · exact List.elem_iff.mp hc
        · exfalso
          apply hg1
          rw [Bool.and_eq_true]
          refine ⟨?_, ?_⟩
          · cases hcc : REGIONS.contains c.region with
            | true => exact absurd hcc hc
            | false => rfl
          · simp [hreg]

lemma init_inv : AggInvariant initAggState.summaries := by
  refine ⟨?_, ?_, ?_, ?_, ?_, ?_, ?_⟩ <;> intros <;>
    simp [initAggState, emptyRegion, emptyProvider, REGIONS]

lemma extractLoopFuel_region {row : List String} {d : String} :
    ∀ (fuel i : Nat) (t : Txn), t ∈ extractLoopFuel row d fuel i → t.region ∈ REGIONS := by
  intro fuel
  induction fuel with
  | zero => intro i t h; rw [extractLoopFuel_zero] at h; cases h
  | succ fuel ih =>
    intro i t h
    rw [extractLoopFuel_succ] at h
    cases hstep : extractStep row d i with
    | stop => rw [hstep] at h; cases h
    | incomplete j => rw [hstep] at h; exact ih j t h
    | emit t' j =>
      rw [hstep] at h
      rcases List.mem_cons.mp h with ht | hmem
      · obtain ⟨b, i1, i3, hb, hs, hc, hj, hregeq, hch, hpd⟩ := extractStep_emit_spec hstep
        have hp := (findNextProviderIndex_spec hb).2.2
        rw [ht, hregeq]
        unfold pairPred at hp
        rw [Bool.and_eq_true] at hp
        exact List.elem_iff.mp hp.2
      · exact ih j t hmem

lemma extractLoopFuel_channel {row : List String} {d : String} :
    ∀ (fuel i : Nat) (t : Txn), t ∈ extractLoopFuel row d fuel i → t.channel ∈ CHANNELS := by
  intro fuel
  induction fuel with
  | zero => intro i t h; rw [extractLoopFuel_zero] at h; cases h
  | succ fuel ih =>
    intro i t h
    rw [extractLoopFuel_succ] at h
    cases hstep : extractStep row d i with
    | stop => rw [hstep] at h; cases h
    | incomplete j => rw [hstep] at h; exact ih j t h
    | emit t' j =>
      rw [hstep] at h
      rcases List.mem_cons.mp h with ht | hmem
      · obtain ⟨b, i1, i3, hb, hs, hc, hj, hregeq, hcheq, hpd⟩ := extractStep_emit_spec hstep
        have hp := (findFromIdx_spec hc).2
        rw [ht, hcheq]
        unfold channelPred at hp
        exact List.elem_iff.mp hp
      · exact ih j t hmem

/-! ### Substring-occurrence lemmas (for the message truncation) -/

lemma isPrefixOf_length_le : ∀ {pat l : List Char}, pat.isPrefixOf l = true →
    pat.length ≤ l.length := by
  intro pat
  induction pat with
  | nil => intro l _; simp
  | cons a t ih =>
    intro l h
    cases l with
    | nil => simp [List.isPrefixOf] at h
    | cons b bs =>
      rw [show (a :: t).isPrefixOf (b :: bs) = (a == b && t.isPrefixOf bs) from rfl,
        Bool.and_eq_true] at h
      simpa using ih h.2

lemma isPrefixOf_getD : ∀ {pat l : List Char}, pat.isPrefixOf l = true →
    ∀ j, j < pat.length → l.getD j 'x' = pat.getD j 'x' := by
  intro pat
  induction pat with
  | nil => intro l _ j hj; simp at hj
  | cons a t ih =>
    intro l h j hj
    cases l with
    | nil => simp [List.isPrefixOf] at h
    | cons b bs =>
      rw [show (a :: t).isPrefixOf (b :: bs) = (a == b && t.isPrefixOf bs) from rfl,
        Bool.and_eq_true] at h
      cases j with
      | zero =>
        have := h.1
        simp only [beq_iff_eq] at this
        simp [this]
      | succ j =>
        simp only [List.getD_cons_succ]
        exact ih h.2 j (by simpa using hj)

lemma isPrefixOf_of_take : ∀ {pat : List Char} (k : Nat) {l : List Char},
    pat.isPrefixOf (l.take k) = true → pat.isPrefixOf l = true := by
  intro pat
  induction pat with
  | nil => intro k l _; cases l <;> rfl
  | cons a t ih =>
    intro k l h
    cases k with
    | zero => simp [List.isPrefixOf] at h
    | succ k =>
      cases l with
      | nil => simp [List.isPrefixOf] at h
      | cons b bs =>
        rw [List.take_succ_cons] at h
        replace h : (a == b && t.isPrefixOf (bs.take k)) = true := h
        rw [Bool.and_eq_true] at h
        show (a == b && t.isPrefixOf bs) = true
        rw [Bool.and_eq_true]
        exact ⟨h.1, ih k h.2⟩

lemma isPrefixOf_take : ∀ {pat : List Char} (k : Nat) {l : List Char},
    pat.isPrefixOf l = true → pat.length ≤ k → pat.isPrefixOf (l.take k) = true := by
  intro pat
  induction pat with
  | nil =>
    intro k l _ _
    generalize l.take k = u
    cases u <;> rfl
  | cons a t ih =>
    intro k l h hk
    cases l with
    | nil => simp [List.isPrefixOf] at h
    | cons b bs =>
      cases k with
      | zero => simp at hk
      | succ k =>
        rw [List.take_succ_cons]
        replace h : (a == b && t.isPrefixOf bs) = true := h
        rw [Bool.and_eq_true] at h
        show (a == b && t.isPrefixOf (bs.take k)) = true
        rw [Bool.and_eq_true]
        exact ⟨h.1, ih k h.2 (by simpa using hk)⟩

lemma firstOccurIdx_prefixAt : ∀ {pat l : List Char} {r : Nat},
    firstOccurIdx pat l = some r → pat.isPrefixOf (l.drop r) = true := by
  intro pat l
  induction l with
  | nil =>
    intro r h
    unfold firstOccurIdx at h
    split at h
    · cases h
      simpa using (by assumption : pat.isPrefixOf ([] : List Char) = true)
    · cases h
  | cons c t ih =>
    intro r h
    unfold firstOccurIdx at h
    split at h
    · cases h
      simpa using (by assumption : pat.isPrefixOf (c :: t) = true)
    · simp only [Option.map_eq_some'] at h
      obtain ⟨r1, hr1, hr⟩ := h
      subst hr
      simpa using ih hr1

lemma firstOccurIdx_min : ∀ {pat l : List Char} {r : Nat},
    firstOccurIdx pat l = some r → ∀ q, q < r → pat.isPrefixOf (l.drop q) = false := by
  intro pat l
  induction l with
  | nil =>
    intro r h q hq
    unfold firstOccurIdx at h
    split at h
    · cases h; omega
    · cases h
  | cons c t ih =>
    intro r h q hq
    unfold firstOccurIdx at h
    split at h
    · cases h; omega
    next hnp =>
      simp only [Option.map_eq_some'] at h
      obtain ⟨r1, hr1, hr⟩ := h
      subst hr
      cases q with
      | zero =>
        simp only [List.drop_zero]
        exact Bool.eq_false_iff.mpr hnp
      | succ q =>
        simp only [List.drop_succ_cons]
        exact ih hr1 q (by omega)

lemma firstOccurIdx_complete : ∀ {pat : List Char} (l : List Char) (r : Nat),
    pat.isPrefixOf (l.drop r) = true → ∃ q, q ≤ r ∧ firstOccurIdx pat l = some q := by
  intro pat l
  induction l with
  | nil =>
    intro r h
    simp only [List.drop_nil] at h
    refine ⟨0, by omega, ?_⟩
    unfold firstOccurIdx
    rw [if_pos h]
  | cons c t ih =>
    intro r h
    by_cases hp : pat.isPrefixOf (c :: t) = true
    · refine ⟨0, by omega, ?_⟩
      unfold firstOccurIdx
      rw [if_pos hp]
    · cases r with
      | zero =>
        simp only [List.drop_zero] at h
        exact absurd h hp
      | succ r =>
        rw [List.drop_succ_cons] at h
        obtain ⟨q, hq, hfo⟩ := ih r h
        refine ⟨q + 1, by omega, ?_⟩
        unfold firstOccurIdx
        rw [if_neg hp, hfo]
        rfl

lemma getD_mem_char : ∀ {l : List Char} {j : Nat}, j < l.length → ∀ d, l.getD j d ∈ l := by
  intro l
  induction l with
  | nil => intro j hj _; simp at hj
  | cons c t ih =>
    intro j hj d
    cases j with
    | zero => simp
    | succ j =>
      simp only [List.getD_cons_succ]
      exact List.mem_cons_of_mem c (ih (by simpa using hj) d)

/-- Transfer of a first occurrence from a truncated message back to the
whole message: because every truncation marker starts with `','` and its
remainder is comma-free, and the truncation point `p` itself starts a
marker occurrence (so carries a `','`), no occurrence can straddle the
cut, and a first occurrence in the prefix is the first occurrence
overall. -/
lemma firstOccurIdx_take_transfer {tail l : List Char} {p r : Nat}
    (htail : ',' ∉ tail)
    (hpc : l.getD p 'x' = ',')
    (h : firstOccurIdx (',' :: tail) (l.take p) = some r) :
    firstOccurIdx (',' :: tail) l = some r := by
  have hpre := firstOccurIdx_prefixAt h
  have hlen := isPrefixOf_length_le hpre
  rw [List.length_drop, List.length_take] at hlen
  have hmin : p ⊓ l.length ≤ p := Nat.min_le_left p l.length
  have hrp : r + (tail.length + 1) ≤ p := by
    simp only [List.length_cons] at hlen
    omega
  rw [List.drop_take] at hpre
  have hoccr : (',' :: tail).isPrefixOf (l.drop r) = true :=
    isPrefixOf_of_take (p - r) hpre
  obtain ⟨q, hqr, hfo⟩ := firstOccurIdx_complete l r hoccr
  rcases Nat.lt_or_ge q r with hlt | hge
  · exfalso
    have hoccq := firstOccurIdx_prefixAt hfo
    by_cases hcase : q + tail.length + 1 ≤ p
    · have hq_take : (',' :: tail).isPrefixOf ((l.take p).drop q) = true := by
        rw [List.drop_take]
        exact isPrefixOf_take (p - q) hoccq (by simp; omega)
      have := firstOccurIdx_min h q hlt
      rw [hq_take] at this
      cases this
    · have hplt : q < p := by omega
      have hj : p - q < (',' :: tail).length := by simp; omega
      have hgd := isPrefixOf_getD hoccq (p - q) hj
      rw [getD_drop, Nat.add_comm q (p - q), Nat.sub_add_cancel (by omega)] at hgd
      rw [hpc] at hgd
      have hj1 : p - q = (p - q - 1) + 1 := by omega
      rw [hj1, List.getD_cons_succ] at hgd
      have hmem : tail.getD (p - q - 1) 'x' ∈ tail :=
        getD_mem_char (by simp at hj; omega) 'x'
      rw [← hgd] at hmem
      exact htail hmem
  · have : q = r := by omega
    rw [← this]
    exact hfo

lemma truncAtFirstMarker_cases : ∀ (tokens : List String) (msg : List Char),
    (truncAtFirstMarker tokens msg = msg ∧
      ∀ t ∈ tokens, firstOccurIdx (markerOf t) (pyLowerL msg) = none) ∨
    ∃ t ∈ tokens, ∃ p, firstOccurIdx (markerOf t) (pyLowerL msg) = some p ∧
      truncAtFirstMarker tokens msg = msg.take p := by
  intro tokens
  induction tokens with
  | nil => intro msg; exact Or.inl ⟨rfl, fun t ht => absurd ht (List.not_mem_nil t)⟩
  | cons t ts ih =>
    intro msg
    cases hfo : firstOccurIdx (markerOf t) (pyLowerL msg) with
    | some p =>
      refine Or.inr ⟨t, List.mem_cons_self t ts, p, hfo, ?_⟩
      unfold truncAtFirstMarker
      rw [hfo]
    | none =>
      rcases ih msg with ⟨heq, hall⟩ | ⟨t2, ht2, p, hp, heq⟩
      · refine Or.inl ⟨?_, ?_⟩
        · unfold truncAtFirstMarker
          rw [hfo]
          exact heq
        · intro t' ht'
          rcases List.mem_cons.mp ht' with h1 | h2
          · rw [h1]; exact hfo
          · exact hall t' h2
      · refine Or.inr ⟨t2, List.mem_cons_of_mem t ht2, p, hp, ?_⟩
        unfold truncAtFirstMarker
        rw [hfo]
        exact heq

lemma regions_marker_comma_free : ∀ t ∈ REGIONS, ',' ∉ pyLowerL t.data := by decide

lemma providers_marker_comma_free : ∀ t ∈ PROVIDERS, ',' ∉ pyLowerL t.data := by decide

lemma processCandidate_cases (P : String → Option String) (st : AggState) (c : Txn) :
    processCandidate P st c = st ∨
    ∃ dt, resolveDate P c.payment_date = some dt ∧
      processCandidate P st c = ingestAccepted st c dt := by
  unfold processCandidate
  split
  · exact Or.inl rfl
  · split
    · exact Or.inl rfl
    · split
      · exact Or.inl rfl
      next dt hdt => exact Or.inr ⟨dt, hdt, rfl⟩

lemma foldl_processCandidate_inv (P : String → Option String) :
    ∀ (cands : List Txn) (st : AggState),
      (∀ t ∈ cands, t.region ≠ "Aggregate") → AggInvariant st.summaries →
      AggInvariant (cands.foldl (processCandidate P) st).summaries := by
  intro cands
  induction cands with
  | nil => intro st _ h; exact h
  | cons c cs ih =>
    intro st hc hInv
    rw [List.foldl_cons]
    exact ih _ (fun t ht => hc t (List.mem_cons_of_mem c ht))
      (processCandidate_preserves_inv P st c (hc c (List.mem_cons_self c cs)) hInv)

lemma processRow_inv (P : String → Option String) (d : String) (st : AggState)
    (row : List String) (h : AggInvariant st.summaries) :
    AggInvariant (processRow P d st row).summaries := by
  unfold processRow
  split
  · exact h
  · apply foldl_processCandidate_inv
    · intro t ht
      unfold extract_transactions at ht
      have hmem := extractLoopFuel_region _ _ t ht
      intro he
      rw [he] at hmem
      exact aggregate_not_region hmem
    · exact h

lemma parseCSV_foldl_inv (P : String → Option String) (d : String) :
    ∀ (rows : List (List String)) (st : AggState), AggInvariant st.summaries →
      AggInvariant ((rows.foldl (processRow P d) st).summaries) := by
  intro rows
  induction rows with
  | nil => intro st h; exact h
  | cons row rs ih =>
    intro st h
    rw [List.foldl_cons]
    exact ih _ (processRow_inv P d st row h)

/-! ### The `"other"` channel key never appears -/

lemma ingest_other_zero {st : AggState} {c : Txn} {dt : Option String}
    (hch : c.channel ∈ CHANNELS)
    (h : ∀ r, (st.summaries r).channel_counts "other" = 0 ∧
      ∀ p, ((st.summaries r).providers p).channel_counts "other" = 0) :
    ∀ r, ((ingestAccepted st c dt).summaries r).channel_counts "other" = 0 ∧
      ∀ p, (((ingestAccepted st c dt).summaries r).providers p).channel_counts "other" = 0 := by
  have hne : "other" ≠ coercedChannel c := by
    unfold coercedChannel
    rw [if_pos (List.elem_iff.mpr hch)]
    intro he
    rw [← he] at hch
    exact other_not_channel hch
  have hadd : ∀ rs : RegionSummary,
      (addToRegion rs dt c.provider c.status (coercedChannel c)
        (normaliseMessage c.message)).channel_counts "other" = rs.channel_counts "other" := by
    intro rs
    rw [addToRegion_channel_apply, if_neg hne]
    omega
  have haddp : ∀ (rs : RegionSummary) (p : String),
      ((addToRegion rs dt c.provider c.status (coercedChannel c)
        (normaliseMessage c.message)).providers p).channel_counts "other"
        = (rs.providers p).channel_counts "other" := by
    intro rs p
    rw [addToRegion_providers_channel, if_neg (by intro hcon; exact hne hcon.2)]
    omega
  intro r
  refine ⟨?_, ?_⟩
  · rw [ingestAccepted_summaries]
    split
    · rw [hadd]
      split
      · rw [hadd]
        exact (h r).1
      · exact (h r).1
    · split
      · rw [hadd]
        exact (h r).1
      · exact (h r).1
  · intro p
    rw [ingestAccepted_summaries]
    split
    · rw [haddp]
      split
      · rw [haddp]
        exact (h r).2 p
      · exact (h r).2 p
    · split
      · rw [haddp]
        exact (h r).2 p
      · exact (h r).2 p

lemma processCandidate_other (P : String → Option String) (st : AggState) (c : Txn)
    (hch : c.channel ∈ CHANNELS)
    (h : ∀ r, (st.summaries r).channel_counts "other" = 0 ∧
      ∀ p, ((st.summaries r).providers p).channel_counts "other" = 0) :
    ∀ r, ((processCandidate P st c).summaries r).channel_counts "other" = 0 ∧
      ∀ p, (((processCandidate P st c).summaries r).providers p).channel_counts "other" = 0 := by
  rcases processCandidate_cases P st c with hc | ⟨dt, -, hc⟩
  · rw [hc]; exact h
  · rw [hc]; exact ingest_other_zero hch h

lemma foldl_processCandidate_other (P : String → Option String) :
    ∀ (cands : List Txn) (st : AggState),
      (∀ t ∈ cands, t.channel ∈ CHANNELS) →
      (∀ r, (st.summaries r).channel_counts "other" = 0 ∧
        ∀ p, ((st.summaries r).providers p).channel_counts "other" = 0) →
      ∀ r, ((cands.foldl (processCandidate P) st).summaries r).channel_counts "other" = 0 ∧
        ∀ p, (((cands.foldl (processCandidate P) st).summaries r).providers p).channel_counts
          "other" = 0 := by
  intro cands
  induction cands with
  | nil => intro st _ h; exact h
  | cons c cs ih =>
    intro st hc h
    rw [List.foldl_cons]
    exact ih _ (fun t ht => hc t (List.mem_cons_of_mem c ht))
      (processCandidate_other P st c (hc c (List.mem_cons_self c cs)) h)

lemma processRow_other (P : String → Option String) (d : String) (st : AggState)
    (row : List String)
    (h : ∀ r, (st.summaries r).channel_counts "other" = 0 ∧
      ∀ p, ((st.summaries r).providers p).channel_counts "other" = 0) :
    ∀ r, ((processRow P d st row).summaries r).channel_counts "other" = 0 ∧
      ∀ p, (((processRow P d st row).summaries r).providers p).channel_counts "other" = 0 := by
  unfold processRow
  split
  · exact h
  · apply foldl_processCandidate_other
    · intro t ht
      unfold extract_transactions at ht
      exact extractLoopFuel_channel _ _ t ht
    · exact h

lemma parseCSV_foldl_other (P : String → Option String) (d : String) :
    ∀ (rows : List (List String)) (st : AggState),
      (∀ r, (st.summaries r).channel_counts "other" = 0 ∧
        ∀ p, ((st.summaries r).providers p).channel_counts "other" = 0) →
      ∀ r, ((rows.foldl (processRow P d) st).summaries r).channel_counts "other" = 0 ∧
        ∀ p, (((rows.foldl (processRow P d) st).summaries r).providers p).channel_counts
          "other" = 0 := by
  intro rows
  induction rows with
  | nil => intro st h; exact h
  | cons row rs ih =>
    intro st h
    rw [List.foldl_cons]
    exact ih _ (processRow_other P d st row h)

/-! ## Claim theorems -/

/-- C2: the row formed by concatenating two well-formed transactions
yields exactly the two expected records, each with its own provider,
region, customer, status, channel, quote-stripped message and timestamp,
and no field leaked from the other (for any file-level default
timestamp). -/
theorem C2_concat_row_two_records : ∀ default_dt : String,
    extract_transactions
      ["cellulant", "Nigeria", "a@x.com", "successful", "card", "\"Payment received\"",
       "2024-01-01T10:00:00", "cellulant", "Ghana", "b@y.com", "failed", "mobile_money",
       "\"Insufficient funds\"", "2024-01-02T11:00:00"] default_dt =
    [{ provider := "cellulant", region := "Nigeria", status := "successful", channel := "card",
       message := "Payment received", payment_date := "2024-01-01T10:00:00",
       customer := "a@x.com" },
     { provider := "cellulant", region := "Ghana", status := "failed", channel := "mobile_money",
       message := "Insufficient funds", payment_date := "2024-01-02T11:00:00",
       customer := "b@y.com" }] := by
  intro default_dt
  rfl

lemma extractLoopFuel_payment {row : List String} {d : String} :
    ∀ (fuel i : Nat) (t : Txn), t ∈ extractLoopFuel row d fuel i →
      t.payment_date = d ∨ isoPrefixMatch t.payment_date = true := by
  intro fuel
  induction fuel with
  | zero => intro i t h; rw [extractLoopFuel_zero] at h; cases h
  | succ fuel ih =>
    intro i t h
    rw [extractLoopFuel_succ] at h
    cases hstep : extractStep row d i with
    | stop => rw [hstep] at h; cases h
    | incomplete j => rw [hstep] at h; exact ih j t h
    | emit t' j =>
      rw [hstep] at h
      rcases List.mem_cons.mp h with ht | hmem
      · obtain ⟨b, i1, i3, hb, hs, hc, hj, hregeq, hcheq, hpd⟩ := extractStep_emit_spec hstep
        rw [ht]
        exact hpd
      · exact ih j t hmem

lemma init_other : ∀ r, (initAggState.summaries r).channel_counts "other" = 0 ∧
    ∀ p, ((initAggState.summaries r).providers p).channel_counts "other" = 0 :=
  fun _ => ⟨rfl, fun _ => rfl⟩

/-- C1: after ingesting any rows, every status, channel and
(status, message) counter of the Aggregate summary — and of each of its
provider buckets — equals the sum of the corresponding counters over the
five real regions, and the Aggregate timestamp list holds exactly (as a
multiset) the timestamps appended across the real regions. -/
theorem C1_aggregate_equals_region_sums (P : String → Option String)
    (header : List String) (rows : List (List String)) :
    AggInvariant (parseCSVModel P header rows).summaries := by
  unfold parseCSVModel
  exact parseCSV_foldl_inv P (headerDefault header) rows initAggState init_inv

/-- C10: every candidate the extractor yields has its channel in the
closed four-channel set, so the `"other"` coercion branch never fires on
extractor output and `"other"` is never a channel key (count 0) in any
region summary or provider bucket that `parse_csv` produces. -/
theorem C10_channel_closed_no_other :
    (∀ (row : List String) (d : String) (t : Txn),
        t ∈ extract_transactions row d → t.channel ∈ CHANNELS) ∧
    (∀ (P : String → Option String) (header : List String) (rows : List (List String))
        (r p : String),
        ((parseCSVModel P header rows).summaries r).channel_counts "other" = 0 ∧
        (((parseCSVModel P header rows).summaries r).providers p).channel_counts "other" = 0) := by
  constructor
  · intro row d t ht
    unfold extract_transactions at ht
    exact extractLoopFuel_channel _ _ t ht
  · intro P header rows r p
    unfold parseCSVModel
    have h := parseCSV_foldl_other P (headerDefault header) rows initAggState init_other
    exact ⟨(h r).1, (h r).2 p⟩

theorem C10_channel_closed_no_other_witness :
    Txn.channel
      { provider := "cellulant", region := "Nigeria", status := "successful",
        channel := "card", message := "m", payment_date := "2024-01-01T10:00:00",
        customer := "a@x.com" } ∈ CHANNELS :=
  C10_channel_closed_no_other.1
    ["cellulant", "Nigeria", "a@x.com", "successful", "card", "m", "2024-01-01T10:00:00"] ""
    { provider := "cellulant", region := "Nigeria", status := "successful",
      channel := "card", message := "m", payment_date := "2024-01-01T10:00:00",
      customer := "a@x.com" }
    (by decide)

/-- C3: for every finite row and default timestamp the scan makes strict
forward progress: an emitted candidate resumes strictly beyond the
boundary it started from, an incomplete candidate resumes exactly at
`boundary + 1`, both strictly above the previous scan position; and
`row.length + 1 - i` fuel already computes the final result, so the
number of boundary attempts is bounded by the row length and no lower
index is ever revisited. -/
theorem C3_strict_forward_progress :
    ∀ (row : List String) (d : String) (i : Nat),
      (∀ t j, extractStep row d i = .emit t j →
        ∃ b, findNextProviderIndex row i = some b ∧ i ≤ b ∧ b < j) ∧
      (∀ j, extractStep row d i = .incomplete j →
        ∃ b, findNextProviderIndex row i = some b ∧ i ≤ b ∧ j = b + 1) ∧
      (∀ fuel, row.length + 1 - i ≤ fuel →
        extractLoopFuel row d fuel i = extractLoopFuel row d (row.length + 1 - i) i) := by
  intro row d i
  refine ⟨?_, ?_, ?_⟩
  · intro t j h
    obtain ⟨b, i1, i3, hb, hs, hc, hj, -⟩ := extractStep_emit_spec h
    have h1 := findNextProviderIndex_spec hb
    have h2 := findFromIdx_spec hs
    have h3 := findFromIdx_spec hc
    exact ⟨b, hb, h1.1, by omega⟩
  · intro j h
    obtain ⟨b, hb, hj⟩ := extractStep_incomplete_spec h
    have h1 := findNextProviderIndex_spec hb
    exact ⟨b, hb, h1.1, hj⟩
  · intro fuel hf
    exact extractLoopFuel_stable row d fuel i hf

theorem C3_strict_forward_progress_witness :
    (∃ b, findNextProviderIndex
        ["cellulant", "Nigeria", "a@x.com", "successful", "card", "m",
         "2024-01-01T10:00:00"] 0 = some b ∧ 0 ≤ b ∧ b < 7) ∧
    (∃ b, findNextProviderIndex ["cellulant", "Nigeria"] 0 = some b ∧ 0 ≤ b ∧ 1 = b + 1) ∧
    extractLoopFuel ["cellulant", "Nigeria"] "" 9 0 =
      extractLoopFuel ["cellulant", "Nigeria"] ""
        ((["cellulant", "Nigeria"] : List String).length + 1 - 0) 0 :=
  ⟨(C3_strict_forward_progress
        ["cellulant", "Nigeria", "a@x.com", "successful", "card", "m",
         "2024-01-01T10:00:00"] "" 0).1
      { provider := "cellulant", region := "Nigeria", status := "successful",
        channel := "card", message := "m", payment_date := "2024-01-01T10:00:00",
        customer := "a@x.com" } 7 rfl,
   (C3_strict_forward_progress ["cellulant", "Nigeria"] "" 0).2.1 1 rfl,
   (C3_strict_forward_progress ["cellulant", "Nigeria"] "" 0).2.2 9 (by decide)⟩

/-- C4 counterexample: a candidate whose region is the literal string
`"Aggregate"` is *not* in the closed five-region set, yet it is not
discarded: the gate of line 248 admits it and both double-writes land on
the Aggregate summary, incrementing its status counter by 2 from the
empty state. -/
theorem C4_region_gate_counterexample :
    ("Aggregate" : String) ∉ REGIONS ∧
    ((processCandidate (fun _ => none) initAggState
        { provider := "cellulant", region := "Aggregate", status := "successful",
          channel := "card", message := "m", payment_date := "<missing-date>",
          customer := "x" }).summaries "Aggregate").status_counts "successful" = 2 ∧
    (initAggState.summaries "Aggregate").status_counts "successful" = 0 := by
  refine ⟨by decide, ?_, rfl⟩
  rfl

/-- C4 (amended): at the validation gate, a candidate whose region is
neither in the closed five-region set nor the literal string
`"Aggregate"` is discarded with no summary mutated; a candidate whose
status is not in the closed status set is discarded; a candidate whose
channel is not in the closed four-channel set is processed exactly as if
its channel were `"other"`, and when accepted it is counted under
`"other"` in its region's channel counters. -/
theorem C4_validation_gate_amended :
    (∀ (P : String → Option String) (st : AggState) (c : Txn),
        c.region ∉ REGIONS → c.region ≠ "Aggregate" → processCandidate P st c = st) ∧
    (∀ (P : String → Option String) (st : AggState) (c : Txn),
        c.status ∉ STATUSES → processCandidate P st c = st) ∧
    (∀ (P : String → Option String) (st : AggState) (c : Txn),
        c.channel ∉ CHANNELS →
        processCandidate P st c = processCandidate P st { c with channel := "other" }) ∧
    (∀ (P : String → Option String) (st : AggState) (c : Txn) (dt : Option String),
        c.region ∈ REGIONS → c.status ∈ STATUSES → c.channel ∉ CHANNELS →
        resolveDate P c.payment_date = some dt →
        ((processCandidate P st c).summaries c.region).channel_counts "other"
          = (st.summaries c.region).channel_counts "other" + 1) := by
  refine ⟨?_, ?_, ?_, ?_⟩
  · intro P st c hmem hne
    have hc : REGIONS.contains c.region = false :=
      Bool.eq_false_iff.mpr (fun hx => hmem (List.elem_iff.mp hx))
    apply processCandidate_gate1
    rw [hc]
    show (!false && (c.region != "Aggregate")) = true
    rw [Bool.not_false, Bool.true_and]
    exact bne_iff_ne.mpr hne
  · intro P st c hmem
    exact processCandidate_status_invalid
      (Bool.eq_false_iff.mpr (fun hx => hmem (List.elem_iff.mp hx)))
  · intro P st c hch
    have hco : coercedChannel { c with channel := "other" } = coercedChannel c := by
      unfold coercedChannel
      rw [if_neg (fun hx => other_not_channel (List.elem_iff.mp hx)),
          if_neg (fun hx => hch (List.elem_iff.mp hx))]
    unfold processCandidate
    dsimp only
    split
    · rfl
    · split
      · rfl
      · split
        · rfl
        · unfold ingestAccepted
          dsimp only
          rw [hco]
  · intro P st c dt hreg hst hch hdt
    have hcon : REGIONS.contains c.region = true := List.elem_iff.mpr hreg
    have hg1 : (!REGIONS.contains c.region && c.region != "Aggregate") = false := by
      rw [hcon]
      show (!true && (c.region != "Aggregate")) = false
      rw [Bool.not_true, Bool.false_and]
    rw [processCandidate_accept hg1 (List.elem_iff.mpr hst) hdt]
    have hgA : c.region ≠ "Aggregate" := by
      intro h
      rw [h] at hreg
      exact aggregate_not_region hreg
    rw [ingestAccepted_summaries, if_neg hgA, if_pos rfl, addToRegion_channel_apply]
    have hoc : coercedChannel c = "other" := by
      unfold coercedChannel
      rw [if_neg (fun hx => hch (List.elem_iff.mp hx))]
    rw [hoc, if_pos rfl]

theorem C4_validation_gate_amended_witness :
    processCandidate (fun _ => none) initAggState
      { provider := "cellulant", region := "Mars", status := "successful",
        channel := "card", message := "m", payment_date := "<missing-date>",
        customer := "x" } = initAggState ∧
    ((processCandidate (fun s => some s) initAggState
        { provider := "cellulant", region := "Nigeria", status := "successful",
          channel := "ussd", message := "m", payment_date := "2024-01-01T10:00:00",
          customer := "x" }).summaries "Nigeria").channel_counts "other"
      = (initAggState.summaries "Nigeria").channel_counts "other" + 1 :=
  ⟨C4_validation_gate_amended.1 (fun _ => none) initAggState
      { provider := "cellulant", region := "Mars", status := "successful",
        channel := "card", message := "m", payment_date := "<missing-date>",
        customer := "x" } (by decide) (by decide),
   C4_validation_gate_amended.2.2.2 (fun s => some s) initAggState
      { provider := "cellulant", region := "Nigeria", status := "successful",
        channel := "ussd", message := "m", payment_date := "2024-01-01T10:00:00",
        customer := "x" } (some "2024-01-01T10:00:00") (by decide) (by decide) (by decide) rfl⟩

/-- C5: the code violates the idempotence requirement.  The input `"..."`
normalizes to the empty string — which is not the blank sentinel — and a
second application of the normalizer maps it to the blank sentinel
instead of returning it unchanged. -/
theorem C5_idempotence_fails_on_dots :
    normaliseMessage "..." = "" ∧
    normaliseMessage (normaliseMessage "...") = BLANK_MESSAGE ∧
    ("" : String) ≠ BLANK_MESSAGE := by
  decide

/-- C6: timestamp resolution.  (i) A record whose resolved timestamp
token is not the missing-date placeholder and fails ISO parsing (after
the `Z` → `+00:00` substitution) is discarded, leaving the state
unchanged; (ii) every extracted record carries either the file-level
default or an ISO-prefixed token, i.e. an unset token is substituted by
the default; (iii) a header with no ISO-8601 cell yields the missing-date
placeholder as default; (iv) a gate-passing record carrying the
placeholder is accepted with the missing-date sentinel (`dt = none`) —
never treated as a parse failure — and appends no timestamp. -/
theorem C6_timestamp_resolution :
    (∀ (P : String → Option String) (st : AggState) (c : Txn),
        c.payment_date ≠ DEFAULT_DATE_PLACEHOLDER →
        P ⟨replaceCharL 'Z' "+00:00".data c.payment_date.data⟩ = none →
        processCandidate P st c = st) ∧
    (∀ (row : List String) (d : String) (t : Txn), t ∈ extract_transactions row d →
        t.payment_date = d ∨ isoPrefixMatch t.payment_date = true) ∧
    (∀ header : List String,
        (∀ cell ∈ header, isoPrefixMatch (pyStrip cell) = false) →
        headerDefault header = DEFAULT_DATE_PLACEHOLDER) ∧
    (∀ (P : String → Option String) (st : AggState) (c : Txn),
        c.payment_date = DEFAULT_DATE_PLACEHOLDER →
        P DEFAULT_DATE_PLACEHOLDER = none →
        c.region ∈ REGIONS → c.status ∈ STATUSES →
        (processCandidate P st c).transactions =
          st.transactions ++
            [{ provider := c.provider, region := c.region, status := c.status,
               channel := coercedChannel c, norm_message := normaliseMessage c.message,
               dt := none, customer := c.customer }] ∧
        (∀ r, ((processCandidate P st c).summaries r).times = (st.summaries r).times)) := by
  refine ⟨?_, ?_, ?_, ?_⟩
  · intro P st c hpd hP
    exact processCandidate_parsefail hpd hP
  · intro row d t ht
    unfold extract_transactions at ht
    exact extractLoopFuel_payment _ _ t ht
  · intro header h
    unfold headerDefault
    rw [List.find?_eq_none.mpr (fun x hx => by rw [h x hx]; exact Bool.false_ne_true)]
  · intro P st c hpd hP hreg hst
    have hdt : resolveDate P c.payment_date = some none := by
      unfold resolveDate
      rw [hpd]
      have hrepl : (⟨replaceCharL 'Z' "+00:00".data DEFAULT_DATE_PLACEHOLDER.data⟩ : String)
          = DEFAULT_DATE_PLACEHOLDER := rfl
      rw [hrepl, hP, if_pos rfl]
    have hcon : REGIONS.contains c.region = true := List.elem_iff.mpr hreg
    have hg1 : (!REGIONS.contains c.region && c.region != "Aggregate") = false := by
      rw [hcon]
      show (!true && (c.region != "Aggregate")) = false
      rw [Bool.not_true, Bool.false_and]
    rw [processCandidate_accept hg1 (List.elem_iff.mpr hst) hdt]
    refine ⟨ingestAccepted_transactions st c none, ?_⟩
    intro r
    have htimes : ∀ rs : RegionSummary,
        (addToRegion rs none c.provider c.status (coercedChannel c)
          (normaliseMessage c.message)).times = rs.times := fun rs => rfl
    rw [ingestAccepted_summaries]
    split
    · rw [htimes]
      split
      · rw [htimes]
      · rfl
    · split
      · rw [htimes]
      · rfl

theorem C6_timestamp_resolution_witness :
    processCandidate (fun _ => none) initAggState
      { provider := "cellulant", region := "Nigeria", status := "successful",
        channel := "card", message := "m", payment_date := "definitely-not-a-date",
        customer := "x" } = initAggState ∧
    ("DFLT" = "DFLT" ∨ isoPrefixMatch "DFLT" = true) ∧
    headerDefault ["id", "amount"] = DEFAULT_DATE_PLACEHOLDER ∧
    (processCandidate (fun _ => none) initAggState
        { provider := "cellulant", region := "Nigeria", status := "successful",
          channel := "card", message := "m", payment_date := "<missing-date>",
          customer := "x" }).transactions =
      initAggState.transactions ++
        [{ provider := "cellulant", region := "Nigeria", status := "successful",
           channel := coercedChannel
             { provider := "cellulant", region := "Nigeria", status := "successful",
               channel := "card", message := "m", payment_date := "<missing-date>",
               customer := "x" },
           norm_message := normaliseMessage "m", dt := none, customer := "x" }] :=
  ⟨C6_timestamp_resolution.1 (fun _ => none) initAggState
      { provider := "cellulant", region := "Nigeria", status := "successful",
        channel := "card", message := "m", payment_date := "definitely-not-a-date",
        customer := "x" } (by decide) rfl,
   C6_timestamp_resolution.2.1
      ["cellulant", "Nigeria", "a@x.com", "successful", "card", "m"] "DFLT"
      { provider := "cellulant", region := "Nigeria", status := "successful",
        channel := "card", message := "m", payment_date := "DFLT", customer := "a@x.com" }
      (by decide),
   C6_timestamp_resolution.2.2.1 ["id", "amount"] (by decide),
   (C6_timestamp_resolution.2.2.2 (fun _ => none) initAggState
      { provider := "cellulant", region := "Nigeria", status := "successful",
        channel := "card", message := "m", payment_date := "<missing-date>",
        customer := "x" } rfl rfl (by decide) (by decide)).1⟩

/-- C7: whenever the assembled message contains a comma immediately
followed (case-insensitively) by a provider or region name, the
post-processing truncates it at such a point exactly once: the result is
the message cut at the first occurrence of the marker of some token of
the combined provider/region vocabulary — which token being left to the
(unspecified) iteration order. -/
theorem C7_message_single_truncation :
    ∀ msg : List Char,
      (∃ t ∈ PROVIDERS ++ REGIONS, (firstOccurIdx (markerOf t) (pyLowerL msg)).isSome) →
      ∃ t ∈ PROVIDERS ++ REGIONS, ∃ p,
        firstOccurIdx (markerOf t) (pyLowerL msg) = some p ∧
        truncMessage msg = msg.take p := by
  intro msg hex
  unfold truncMessage
  rcases truncAtFirstMarker_cases PROVIDERS msg with ⟨heq1, hall1⟩ | ⟨t1, ht1, p1, hp1, heq1⟩
  · rw [heq1]
    rcases truncAtFirstMarker_cases REGIONS msg with ⟨heq2, hall2⟩ | ⟨t2, ht2, p2, hp2, heq2⟩
    · exfalso
      obtain ⟨t, ht, hsome⟩ := hex
      rcases List.mem_append.mp ht with h | h
      · rw [hall1 t h] at hsome
        simp at hsome
      · rw [hall2 t h] at hsome
        simp at hsome
    · exact ⟨t2, List.mem_append_right _ ht2, p2, hp2, heq2⟩
  · rw [heq1]
    rcases truncAtFirstMarker_cases REGIONS (msg.take p1) with ⟨heq2, hall2⟩ | ⟨t2, ht2, p2, hp2, heq2⟩
    · rw [heq2]
      exact ⟨t1, List.mem_append_left _ ht1, p1, hp1, rfl⟩
    · have hcf : ',' ∉ pyLowerL t2.data := regions_marker_comma_free t2 ht2
      have hpre1 := firstOccurIdx_prefixAt hp1
      have hpc : (pyLowerL msg).getD p1 'x' = ',' := by
        have hgd := isPrefixOf_getD hpre1 0 (by simp [markerOf])
        rw [getD_drop] at hgd
        simpa [markerOf] using hgd
      have hlow : pyLowerL (msg.take p1) = (pyLowerL msg).take p1 := by
        unfold pyLowerL
        exact List.map_take Char.toLower msg p1
      rw [hlow] at hp2
      have hp2' : firstOccurIdx (markerOf t2) (pyLowerL msg) = some p2 :=
        firstOccurIdx_take_transfer hcf hpc hp2
      have hlen2 := isPrefixOf_length_le (firstOccurIdx_prefixAt hp2)
      rw [List.length_drop, List.length_take] at hlen2
      have hmin : p1 ⊓ (pyLowerL msg).length ≤ p1 := Nat.min_le_left _ _
      have hle : p2 ≤ p1 := by
        simp only [markerOf, List.length_cons] at hlen2
        omega
      refine ⟨t2, List.mem_append_right _ ht2, p2, hp2', ?_⟩
      rw [heq2, List.take_take, Nat.min_eq_left hle]

theorem C7_message_single_truncation_witness :
    ∃ t ∈ PROVIDERS ++ REGIONS, ∃ p,
      firstOccurIdx (markerOf t) (pyLowerL "err,cellulant x".data) = some p ∧
      truncMessage "err,cellulant x".data = "err,cellulant x".data.take p :=
  C7_message_single_truncation "err,cellulant x".data ⟨"cellulant", by decide, by decide⟩

/-- C8 counterexample: a first line wrapped in a matching pair of single
quotes keeps its quotes — the quote-stripping step removes no layer
(lines 62-66 only handle double quotes), and the full normalizer returns
the text with the single quotes intact. -/
theorem C8_single_quotes_not_stripped :
    stripWrappingQuotes "'hi'".data = "'hi'".data ∧
    stripWrappingQuotes "'hi'".data ≠ "hi".data ∧
    normaliseMessage "'hi'" = "'hi'" := by
  decide

/-- C8 (amended): only double-quote wrapping is handled: if the first
line starts and ends with `"` and has length > 1, one layer is removed
(with whitespace trimming) and remaining boundary `"` characters are then
stripped; a line wrapped in single quotes is left completely unchanged by
the quote-stripping step. -/
theorem C8_quote_stripping_amended :
    (∀ l : List Char, l.head? = some '"' → l.getLast? = some '"' → 1 < l.length →
      stripWrappingQuotes l = pyStripL (stripCharL '"' (pyStripL ((l.drop 1).dropLast)))) ∧
    (∀ l : List Char, l.head? = some '\'' → l.getLast? = some '\'' →
      stripWrappingQuotes l = l) := by
  constructor
  · intro l h1 h2 h3
    unfold stripWrappingQuotes
    rw [if_pos ⟨h1, h2, h3⟩]
  · intro l h1 h2
    unfold stripWrappingQuotes
    rw [if_neg (by
      intro hcon
      rw [h1] at hcon
      exact absurd hcon.1 (by decide))]
    show pyStripL (stripCharL '"' l) = l
    rw [stripCharL_eq_self
        (by intro c hc; rw [h1] at hc; cases hc; decide)
        (by intro c hc; rw [h2] at hc; cases hc; decide)]
    exact pyStripL_eq_self
      (by intro c hc; rw [h1] at hc; cases hc; decide)
      (by intro c hc; rw [h2] at hc; cases hc; decide)

theorem C8_quote_stripping_amended_witness :
    stripWrappingQuotes "\" 'a' \"".data =
      pyStripL (stripCharL '"' (pyStripL (("\" 'a' \"".data.drop 1).dropLast))) ∧
    stripWrappingQuotes "'ab'".data = "'ab'".data :=
  ⟨C8_quote_stripping_amended.1 "\" 'a' \"".data (by decide) (by decide) (by decide),
   C8_quote_stripping_amended.2 "'ab'".data (by decide) (by decide)⟩

/-- C9: every input that, after the cleanup steps of the normalizer,
case-insensitively starts with one of the fixed OTP-prompt lead phrases
normalizes to exactly `"OTP verification required"`; in particular the
two concrete prompts from the spec do. -/
theorem C9_otp_canonicalization :
    (∀ (s : String) (fl : List Char), normPrelude s = some fl →
      otp_patterns.any (fun p => p.isPrefixOf (pyLowerL fl)) = true →
      normaliseMessage s = "OTP verification required") ∧
    normaliseMessage "KINDLY ENTER THE OTP SENT TO YOUR PHONE" = "OTP verification required" ∧
    normaliseMessage "please enter the otp to continue" = "OTP verification required" := by
  refine ⟨?_, by decide, by decide⟩
  intro s fl h hotp
  unfold normaliseMessage
  rw [h]
  show String.mk (normFinish fl) = _
  have hnf : normFinish fl = "OTP verification required".data := by
    unfold normFinish
    simp only [hotp, if_true]
  rw [hnf]

theorem C9_otp_canonicalization_witness :
    normaliseMessage "please input the otp now" = "OTP verification required" :=
  C9_otp_canonicalization.1 "please input the otp now" "please input the otp now".data
    (by decide) (by decide)

end SpotFlow
